import Mathlib

/-!
A shallow embedding of the core of `dataspec` (`src/dataspec/base.py` and
`nilable_spec` from `src/dataspec/factories.py`).

Modelling choices, kept close to the Python source:

* Python values are modelled by the inductive type `Val`.  Python tuples and
  lists are both modelled by `Val.list` (the claims under study never
  distinguish them).  The `INVALID` sentinel is an ordinary object in Python,
  so it is an ordinary constructor `Val.invalid` here.  Enum members are
  `Val.enumMem enumName memberName`; an enum type itself is a list of
  `(name, value)` pairs of its canonical (non-alias) members.
* A Python `validate` method is a generator of `ErrorDetails`.  Its complete
  observable behaviour is a finite prefix of yielded errors, optionally
  terminated by a raised exception: the type `VRes`.  `is_valid` forces only
  the first element, `validate_all` forces the whole stream; both are derived
  from `VRes` exactly as the base class derives them from the generator.
* A constructed Spec object is its post-construction behaviour: a `tag`, a
  `validate` function and an optional `conformer` (the structure `Spec`).
  Each concrete class/factory of the source becomes a builder producing such
  a structure, transcribing the corresponding `validate` body and conformer
  composition.  `make_spec` dispatch itself (turning raw shapes into Specs)
  is outside the claims and is not modelled: builders take already-built
  child Specs, as the Python constructors do after dispatch.
* Exceptions are `PyExn`.  Functions that can raise return `Except PyExn _`.
-/

inductive PyExn where
  | typeError
  | keyError
  | valueError
  | attributeError
  | assertionError
deriving DecidableEq, Repr

def pyExnStr : PyExn → String
  | PyExn.typeError => "TypeError"
  | PyExn.keyError => "KeyError"
  | PyExn.valueError => "ValueError"
  | PyExn.attributeError => "AttributeError"
  | PyExn.assertionError => "AssertionError"

inductive Val where
  | none
  | bool (b : Bool)
  | int (n : Int)
  | str (s : String)
  | list (vs : List Val)
  | dict (kvs : List (String × Val))
  | enumMem (enumName memberName : String)
  | invalid

mutual

def Val.decEq : (a b : Val) → Decidable (a = b)
  | Val.none, Val.none => isTrue rfl
  | Val.none, Val.bool _ => isFalse (fun h => Val.noConfusion h)
  | Val.none, Val.int _ => isFalse (fun h => Val.noConfusion h)
  | Val.none, Val.str _ => isFalse (fun h => Val.noConfusion h)
  | Val.none, Val.list _ => isFalse (fun h => Val.noConfusion h)
  | Val.none, Val.dict _ => isFalse (fun h => Val.noConfusion h)
  | Val.none, Val.enumMem _ _ => isFalse (fun h => Val.noConfusion h)
  | Val.none, Val.invalid => isFalse (fun h => Val.noConfusion h)
  | Val.bool _, Val.none => isFalse (fun h => Val.noConfusion h)
  | Val.bool a, Val.bool b =>
    if h : a = b then isTrue (by rw [h]) else isFalse (fun hh => h (Val.bool.inj hh))
  | Val.bool _, Val.int _ => isFalse (fun h => Val.noConfusion h)
  | Val.bool _, Val.str _ => isFalse (fun h => Val.noConfusion h)
  | Val.bool _, Val.list _ => isFalse (fun h => Val.noConfusion h)
  | Val.bool _, Val.dict _ => isFalse (fun h => Val.noConfusion h)
  | Val.bool _, Val.enumMem _ _ => isFalse (fun h => Val.noConfusion h)
  | Val.bool _, Val.invalid => isFalse (fun h => Val.noConfusion h)
  | Val.int _, Val.none => isFalse (fun h => Val.noConfusion h)
  | Val.int _, Val.bool _ => isFalse (fun h => Val.noConfusion h)
  | Val.int a, Val.int b =>
    if h : a = b then isTrue (by rw [h]) else isFalse (fun hh => h (Val.int.inj hh))
  | Val.int _, Val.str _ => isFalse (fun h => Val.noConfusion h)
  | Val.int _, Val.list _ => isFalse (fun h => Val.noConfusion h)
  | Val.int _, Val.dict _ => isFalse (fun h => Val.noConfusion h)
  | Val.int _, Val.enumMem _ _ => isFalse (fun h => Val.noConfusion h)
  | Val.int _, Val.invalid => isFalse (fun h => Val.noConfusion h)
  | Val.str _, Val.none => isFalse (fun h => Val.noConfusion h)
  | Val.str _, Val.bool _ => isFalse (fun h => Val.noConfusion h)
  | Val.str _, Val.int _ => isFalse (fun h => Val.noConfusion h)
  | Val.str a, Val.str b =>
    if h : a = b then isTrue (by rw [h]) else isFalse (fun hh => h (Val.str.inj hh))
  | Val.str _, Val.list _ => isFalse (fun h => Val.noConfusion h)
  | Val.str _, Val.dict _ => isFalse (fun h => Val.noConfusion h)
  | Val.str _, Val.enumMem _ _ => isFalse (fun h => Val.noConfusion h)
  | Val.str _, Val.invalid => isFalse (fun h => Val.noConfusion h)
  | Val.list _, Val.none => isFalse (fun h => Val.noConfusion h)
  | Val.list _, Val.bool _ => isFalse (fun h => Val.noConfusion h)
  | Val.list _, Val.int _ => isFalse (fun h => Val.noConfusion h)
  | Val.list _, Val.str _ => isFalse (fun h => Val.noConfusion h)
  | Val.list as, Val.list bs =>
    match Val.decEqList as bs with
    | isTrue h => isTrue (by rw [h])
    | isFalse h => isFalse (fun hh => h (Val.list.inj hh))
  | Val.list _, Val.dict _ => isFalse (fun h => Val.noConfusion h)
  | Val.list _, Val.enumMem _ _ => isFalse (fun h => Val.noConfusion h)
  | Val.list _, Val.invalid => isFalse (fun h => Val.noConfusion h)
  | Val.dict _, Val.none => isFalse (fun h => Val.noConfusion h)
  | Val.dict _, Val.bool _ => isFalse (fun h => Val.noConfusion h)
  | Val.dict _, Val.int _ => isFalse (fun h => Val.noConfusion h)
  | Val.dict _, Val.str _ => isFalse (fun h => Val.noConfusion h)
  | Val.dict _, Val.list _ => isFalse (fun h => Val.noConfusion h)
  | Val.dict as, Val.dict bs =>
    match Val.decEqKV as bs with
    | isTrue h => isTrue (by rw [h])
    | isFalse h => isFalse (fun hh => h (Val.dict.inj hh))
  | Val.dict _, Val.enumMem _ _ => isFalse (fun h => Val.noConfusion h)
  | Val.dict _, Val.invalid => isFalse (fun h => Val.noConfusion h)
  | Val.enumMem _ _, Val.none => isFalse (fun h => Val.noConfusion h)
  | Val.enumMem _ _, Val.bool _ => isFalse (fun h => Val.noConfusion h)
  | Val.enumMem _ _, Val.int _ => isFalse (fun h => Val.noConfusion h)
  | Val.enumMem _ _, Val.str _ => isFalse (fun h => Val.noConfusion h)
  | Val.enumMem _ _, Val.list _ => isFalse (fun h => Val.noConfusion h)
  | Val.enumMem _ _, Val.dict _ => isFalse (fun h => Val.noConfusion h)
  | Val.enumMem a b, Val.enumMem c d =>
    if h : a = c ∧ b = d then isTrue (by rw [h.1, h.2])
    else isFalse (fun hh => h (Val.enumMem.inj hh))
  | Val.enumMem _ _, Val.invalid => isFalse (fun h => Val.noConfusion h)
  | Val.invalid, Val.none => isFalse (fun h => Val.noConfusion h)
  | Val.invalid, Val.bool _ => isFalse (fun h => Val.noConfusion h)
  | Val.invalid, Val.int _ => isFalse (fun h => Val.noConfusion h)
  | Val.invalid, Val.str _ => isFalse (fun h => Val.noConfusion h)
  | Val.invalid, Val.list _ => isFalse (fun h => Val.noConfusion h)
  | Val.invalid, Val.dict _ => isFalse (fun h => Val.noConfusion h)
  | Val.invalid, Val.enumMem _ _ => isFalse (fun h => Val.noConfusion h)
  | Val.invalid, Val.invalid => isTrue rfl

def Val.decEqList : (as bs : List Val) → Decidable (as = bs)
  | [], [] => isTrue rfl
  | [], _ :: _ => isFalse (fun h => List.noConfusion h)
  | _ :: _, [] => isFalse (fun h => List.noConfusion h)
  | a :: as, b :: bs =>
    match Val.decEq a b with
    | isFalse h => isFalse (fun hh => h (List.head_eq_of_cons_eq hh))
    | isTrue h =>
      match Val.decEqList as bs with
      | isTrue h2 => isTrue (by rw [h, h2])
      | isFalse h2 => isFalse (fun hh => h2 (List.tail_eq_of_cons_eq hh))

def Val.decEqKV : (as bs : List (String × Val)) → Decidable (as = bs)
  | [], [] => isTrue rfl
  | [], _ :: _ => isFalse (fun h => List.noConfusion h)
  | _ :: _, [] => isFalse (fun h => List.noConfusion h)
  | (k1, v1) :: as, (k2, v2) :: bs =>
    if hk : k1 = k2 then
      match Val.decEq v1 v2 with
      | isFalse h =>
        isFalse (fun hh => h (congrArg Prod.snd (List.head_eq_of_cons_eq hh)))
      | isTrue h =>
        match Val.decEqKV as bs with
        | isTrue h2 => isTrue (by rw [hk, h, h2])
        | isFalse h2 => isFalse (fun hh => h2 (List.tail_eq_of_cons_eq hh))
    else
      isFalse (fun hh => hk (congrArg Prod.fst (List.head_eq_of_cons_eq hh)))

end

instance : DecidableEq Val := Val.decEq

instance {ε α : Type} [DecidableEq ε] [DecidableEq α] : DecidableEq (Except ε α) := fun a b =>
  match a, b with
  | Except.ok x, Except.ok y =>
    if h : x = y then isTrue (by rw [h]) else isFalse (fun hh => h (Except.ok.inj hh))
  | Except.error x, Except.error y =>
    if h : x = y then isTrue (by rw [h]) else isFalse (fun hh => h (Except.error.inj hh))
  | Except.ok _, Except.error _ => isFalse (fun h => Except.noConfusion h)
  | Except.error _, Except.ok _ => isFalse (fun h => Except.noConfusion h)

/-- `str(v)` as used in error-message interpolation.  Container contents are
elided: no claim inspects the printed form of a container. -/
def pyStr : Val → String
  | Val.none => "None"
  | Val.bool true => "True"
  | Val.bool false => "False"
  | Val.int n => toString n
  | Val.str s => s
  | Val.list _ => "<list>"
  | Val.dict _ => "<dict>"
  | Val.enumMem e m => e ++ "." ++ m
  | Val.invalid => "<Invalid>"

/-- Python hashability of the modelled values: lists and dicts are
unhashable, everything else (including `INVALID` and enum members) is
hashable. -/
def isHashable : Val → Bool
  | Val.list _ => false
  | Val.dict _ => false
  | _ => true

/-- `iter(v)` / `for e in v`: lists yield elements, strings yield their
characters, dicts yield their keys; other values raise `TypeError`. -/
def pyIter : Val → Except PyExn (List Val)
  | Val.list vs => Except.ok vs
  | Val.str s => Except.ok (s.toList.map (fun c => Val.str c.toString))
  | Val.dict kvs => Except.ok (kvs.map (fun kv => Val.str kv.1))
  | _ => Except.error PyExn.typeError

/-- `len(v)` for the modelled values (defined on exactly the iterable ones). -/
def pyLen (v : Val) : Except PyExn Nat :=
  (pyIter v).map List.length

/-- `k in v` (membership test with a string key, as used by
`DictSpec.validate`).  Dicts test keys, lists test elements, strings test
substrings; other values raise `TypeError`. -/
def dictContains (v : Val) (k : String) : Except PyExn Bool :=
  match v with
  | Val.dict kvs => Except.ok (kvs.any (fun kv => kv.1 == k))
  | Val.list vs => Except.ok (vs.contains (Val.str k))
  | Val.str s => Except.ok (k.isEmpty || (s.splitOn k).length ≥ 2)
  | _ => Except.error PyExn.typeError

/-- `v[k]` with a string key: dict lookup (`KeyError` when absent); list and
string subscripts with a string key raise `TypeError`. -/
def dictGet (v : Val) (k : String) : Except PyExn Val :=
  match v with
  | Val.dict kvs =>
    match kvs.find? (fun kv => kv.1 == k) with
    | Option.some kv => Except.ok kv.2
    | Option.none => Except.error PyExn.keyError
  | _ => Except.error PyExn.typeError

/-- `dataspec.base.ErrorDetails`.  The `pred` attribute holds the offending
predicate object in Python; here it is modelled by a string descriptor (its
stringified form, as `ErrorDetails.as_map` would produce). -/
structure ErrorDetails where
  message : String
  pred : String
  value : Val
  via : List String
  path : List Val
deriving DecidableEq

/-- `ErrorDetails.with_details`: prepend `tag` to `via`; prepend `loc` to
`path` when a location is supplied (`Option.none` models `NO_ERROR_PATH`).
Python mutates the instance in place; the heap-level statement of that fact
is `withDetailsRef` below.  This function is the value-level content. -/
def ErrorDetails.with_details (err : ErrorDetails) (tag : String) (loc : Option Val) : ErrorDetails :=
  { err with
    via := tag :: err.via
    path := match loc with
            | Option.some l => l :: err.path
            | Option.none => err.path }

/-- The observable behaviour of one run of a `validate` generator: the
errors yielded in order, either running to completion (`done`) or
terminated by an uncaught exception (`raised`). -/
inductive VRes where
  | done (errs : List ErrorDetails)
  | raised (errs : List ErrorDetails) (e : PyExn)
deriving DecidableEq

/-- The errors yielded (before any exception). -/
def VRes.errs : VRes → List ErrorDetails
  | VRes.done errs => errs
  | VRes.raised errs _ => errs

/-- Sequencing of two generator segments: run the first; if it raised, the
second is never reached. -/
def VRes.seq : VRes → VRes → VRes
  | VRes.done errs, VRes.done errs2 => VRes.done (errs ++ errs2)
  | VRes.done errs, VRes.raised errs2 e => VRes.raised (errs ++ errs2) e
  | VRes.raised errs e, _ => VRes.raised errs e

/-- `_enrich_errors`: every yielded error passes through `with_details`;
an exception from the source propagates after the enriched prefix. -/
def enrichVRes (r : VRes) (tag : String) (loc : Option Val) : VRes :=
  match r with
  | VRes.done errs => VRes.done (errs.map (fun err => err.with_details tag loc))
  | VRes.raised errs e => VRes.raised (errs.map (fun err => err.with_details tag loc)) e

/-- A conformer: value to conformed value (possibly `Val.invalid`), or a
raised exception. -/
def Conf : Type := Val → Except PyExn Val

/-- `compose_conformers`: drop the absent ones; none left means no
conformer; a single one is used as-is; otherwise thread the value through
each in turn, stopping at `INVALID`. -/
def doConform : List Conf → Val → Except PyExn Val
  | [], v => Except.ok v
  | c :: rest, v =>
    match c v with
    | Except.error e => Except.error e
    | Except.ok v2 =>
      if v2 = Val.invalid then Except.ok v2 else doConform rest v2

def compose_conformers (cs : List (Option Conf)) : Option Conf :=
  match cs.filterMap id with
  | [] => Option.none
  | [c] => Option.some c
  | cs2 => Option.some (fun v => doConform cs2 v)

/-- A constructed Spec: its tag, its `validate` behaviour and its
`conformer` property. -/
structure Spec where
  tag : String
  validate : Val → VRes
  conformer : Option Conf

/-- `Spec.conform_valid`: apply the conformer if present, else identity. -/
def Spec.conform_valid (s : Spec) (v : Val) : Except PyExn Val :=
  match s.conformer with
  | Option.none => Except.ok v
  | Option.some c => c v

/-- `Spec.is_valid`: force the first element of the error stream only. -/
def Spec.is_valid (s : Spec) (v : Val) : Except PyExn Bool :=
  match s.validate v with
  | VRes.done [] => Except.ok true
  | VRes.done (_ :: _) => Except.ok false
  | VRes.raised [] e => Except.error e
  | VRes.raised (_ :: _) _ => Except.ok false

/-- `Spec.validate_all = list(spec.validate(v))`. -/
def Spec.validate_all (s : Spec) (v : Val) : Except PyExn (List ErrorDetails) :=
  match s.validate v with
  | VRes.done errs => Except.ok errs
  | VRes.raised _ e => Except.error e

/-- `Spec.conform`: `conform_valid` when `is_valid`, else `INVALID`.  The
validity check is lazy, so an error yielded before an exception point makes
the value invalid without raising. -/
def Spec.conform (s : Spec) (v : Val) : Except PyExn Val :=
  match s.validate v with
  | VRes.done [] => s.conform_valid v
  | VRes.done (_ :: _) => Except.ok (Val.invalid)
  | VRes.raised [] e => Except.error e
  | VRes.raised (_ :: _) _ => Except.ok (Val.invalid)

/-- The error produced by `ValidatorSpec.validate` when the wrapped
validator function raises. -/
def excErrorDetails (tag : String) (e : PyExn) (v : Val) : ErrorDetails :=
  { message := "Exception occurred during Validation: " ++ pyExnStr e
    pred := "ValidatorSpec"
    value := v
    via := [tag]
    path := [] }

/-- `ValidatorSpec`: wraps a raw validator function; yielded errors are
enriched with the tag, and an exception is converted into a single trailing
error, so the wrapped `validate` never raises. -/
def ValidatorSpec (tag : String) (f : Val → VRes) (conf : Option Conf) : Spec :=
  { tag := tag
    validate := fun v =>
      match f v with
      | VRes.done errs =>
        VRes.done (errs.map (fun err => err.with_details tag Option.none))
      | VRes.raised errs e =>
        VRes.done (errs.map (fun err => err.with_details tag Option.none) ++ [excErrorDetails tag e v])
    conformer := conf }

/-- `PredicateSpec`: a boolean predicate; a raised exception becomes one
error (note: unlike the failure error, the exception error is built without
a `via` entry in the source). -/
def PredicateSpec (tag : String) (p : Val → Except PyExn Bool) (conf : Option Conf) : Spec :=
  { tag := tag
    validate := fun v =>
      match p v with
      | Except.ok true => VRes.done []
      | Except.ok false =>
        VRes.done [{ message := "Value " ++ pyStr v ++ " does not satisfy predicate " ++ tag
                     pred := tag
                     value := v
                     via := [tag]
                     path := [] }]
      | Except.error e =>
        VRes.done [{ message := "Exception occurred during Validation: " ++ pyExnStr e
                     pred := "PredicateSpec"
                     value := v
                     via := []
                     path := [] }]
    conformer := conf }

/-- `v not in values` for a set: hashing an unhashable value raises. -/
def setContains (values : List Val) (v : Val) : Except PyExn Bool :=
  if isHashable v then Except.ok (values.contains v) else Except.error PyExn.typeError

/-- `SetSpec`: membership in a literal value set.  The membership test is
not guarded, so an unhashable value raises out of `validate`. -/
def SetSpec (tag : String) (values : List Val) (conf : Option Conf) : Spec :=
  { tag := tag
    validate := fun v =>
      match setContains values v with
      | Except.error e => VRes.raised [] e
      | Except.ok true => VRes.done []
      | Except.ok false =>
        VRes.done [{ message := "Value " ++ pyStr v ++ " not in the value set"
                     pred := "set"
                     value := v
                     via := [tag]
                     path := [] }]
    conformer := conf }

/-- The value set built by `SetSpec.from_enum`: for every canonical member,
the member itself, its name and its value. -/
def enumValues (enumName : String) (members : List (String × Val)) : List Val :=
  (members.map (fun m => [Val.enumMem enumName m.1, Val.str m.1, m.2])).flatten

/-- Whether `v` is a member object of *this* enum (Python's
`type(value) is cls` test at the top of `Enum.__new__`).  A member of a
different enum is not one, and falls through to value lookup. -/
def isMemberOf (enumName : String) (members : List (String × Val)) : Val → Bool
  | Val.enumMem e m => e == enumName && members.any (fun p => p.1 == m)
  | _ => false

/-- `_enum_conformer`: first `e(v)` — pass a member of this enum through,
else look the value up among the member values (this covers values of any
shape, including members of *other* enums used as values); on
`ValueError`, `e[v]` — look a string up among the member names; else
`INVALID`.  Value lookup takes the first canonical member whose value
equals `v`, matching the alias rule that distinct canonical members have
distinct values. -/
def enumConformer (enumName : String) (members : List (String × Val)) : Conf := fun v =>
  if isMemberOf enumName members v then Except.ok v
  else
    match members.find? (fun p => p.2 == v) with
    | Option.some p => Except.ok (Val.enumMem enumName p.1)
    | Option.none =>
      match v with
      | Val.str s =>
        match members.find? (fun p => p.1 == s) with
        | Option.some p => Except.ok (Val.enumMem enumName p.1)
        | Option.none => Except.ok Val.invalid
      | _ => Except.ok Val.invalid

/-- `SetSpec.from_enum`: a `SetSpec` over the member/name/value set with the
enum conformer composed before any user conformer; the default tag is the
name of the enum. -/
def SetSpec.from_enum (tag : Option String) (enumName : String)
    (members : List (String × Val)) (conf : Option Conf) : Spec :=
  SetSpec (tag.getD enumName) (enumValues enumName members)
    (compose_conformers [Option.some (enumConformer enumName members), conf])

/-- The validator added by `CollSpec.from_val` when `allow_str` is false and
no `kind` is given (built by `pred_to_validator`, hence no `via` entry). -/
def collIsStrValidator : Val → VRes := fun v =>
  match v with
  | Val.str _ =>
    VRes.done [{ message := "Collection is a string, not a collection"
                 pred := "coll_is_str"
                 value := v
                 via := []
                 path := [] }]
  | _ => VRes.done []

/-- The per-element half of `CollSpec.validate`: each element is validated
by the child Spec and its errors enriched with the collection tag and the
numeric index.  An exception from a child propagates (there is no
try/except in `CollSpec.validate`). -/
def collElemsGo (child : Spec) (tag : String) : List Val → Nat → VRes
  | [], _ => VRes.done []
  | e :: rest, i =>
    VRes.seq (enrichVRes (child.validate e) tag (Option.some (Val.int (Int.ofNat i))))
      (collElemsGo child tag rest (i + 1))

/-- `CollSpec.from_val tag [child]` (no option dict): collection-level
validators first (here only the string check), then per-element validation;
`enumerate` over a non-iterable subject raises `TypeError`, uncaught.  The
default conformer rebuilds a list from each element conformed by the child
(the `into`/`out_type` option is not modelled; no claim uses it). -/
def CollSpec.from_val (tag : Option String) (child : Spec) (conf : Option Conf) : Spec :=
  let t := tag.getD "coll"
  let vcoll := ValidatorSpec "coll" collIsStrValidator Option.none
  let conformColl : Conf := fun v =>
    match pyIter v with
    | Except.error e => Except.error e
    | Except.ok elems =>
      (elems.mapM (fun e => child.conform e)).map Val.list
  { tag := t
    validate := fun v =>
      VRes.seq (enrichVRes (vcoll.validate v) t Option.none)
        (match pyIter v with
         | Except.error e => VRes.raised [] e
         | Except.ok elems => collElemsGo child t elems 0)
    conformer := compose_conformers [Option.some conformColl, conf] }

/-- The error for a required key absent from the subject mapping: the key
itself is the whole path and the child Spec (its tag here) is the `pred`. -/
def missingKeyError (tag : String) (childTag : String) (k : String) (d : Val) : ErrorDetails :=
  { message := "Mapping missing key " ++ k
    pred := childTag
    value := d
    via := [tag]
    path := [Val.str k] }

/-- The single shape error for a subject on which key access raised. -/
def notMappingError (tag : String) (d : Val) : ErrorDetails :=
  { message := "Value is not a mapping type"
    pred := "DictSpec"
    value := d
    via := [tag]
    path := [] }

/-- The key loop of `DictSpec.validate`, without the surrounding
try/except: exceptions surface as `VRes.raised`.  A keyspec is
`(key, is_optional, child Spec)`. -/
def dictGoRaw (tag : String) (d : Val) : List (String × Bool × Spec) → VRes
  | [] => VRes.done []
  | (k, isOpt, child) :: rest =>
    match dictContains d k with
    | Except.error e => VRes.raised [] e
    | Except.ok true =>
      match dictGet d k with
      | Except.error e => VRes.raised [] e
      | Except.ok vk =>
        VRes.seq (enrichVRes (child.validate vk) tag (Option.some (Val.str k)))
          (dictGoRaw tag d rest)
    | Except.ok false =>
      if isOpt then dictGoRaw tag d rest
      else VRes.seq (VRes.done [missingKeyError tag child.tag k d]) (dictGoRaw tag d rest)

/-- `DictSpec` (as produced by `DictSpec.from_val` after splitting
`OptionalKey` markers): the key loop wrapped in
`except (AttributeError, TypeError)`, which converts such an exception into
one shape error after the errors already yielded.  The default conformer
rebuilds a fresh mapping of every required key and every present optional
key, each conformed by its child (dropping unrecognized keys). -/
def DictSpec.from_val (tag : Option String) (keyspecs : List (String × Bool × Spec))
    (conf : Option Conf) : Spec :=
  let t := tag.getD "map"
  let conformMapping : Conf := fun d =>
    (keyspecs.foldlM
      (fun (acc : List (String × Val)) (ks : String × Bool × Spec) =>
        match ks with
        | (k, isOpt, child) =>
          match dictContains d k with
          | Except.error e => Except.error e
          | Except.ok present =>
            if isOpt && !present then Except.ok acc
            else
              match dictGet d k with
              | Except.error e => Except.error e
              | Except.ok vk =>
                match child.conform vk with
                | Except.error e => Except.error e
                | Except.ok cv => Except.ok (acc ++ [(k, cv)]))
      []).map Val.dict
  { tag := t
    validate := fun d =>
      match dictGoRaw t d keyspecs with
      | VRes.raised errs e =>
        if e = PyExn.typeError ∨ e = PyExn.attributeError
        then VRes.done (errs ++ [notMappingError t d])
        else VRes.raised errs e
      | r => r
    conformer := compose_conformers [Option.some conformMapping, conf] }

/-- The arity-mismatch error of `TupleSpec.validate` (note `value` is the
actual length, and the message cites expected and actual lengths). -/
def tupleLenError (tag : String) (expected actual : Nat) : ErrorDetails :=
  { message := s!"Expected {expected} values; found {actual}"
    pred := "TupleSpec"
    value := Val.int (Int.ofNat actual)
    via := [tag]
    path := [] }

/-- The shape error of `TupleSpec.validate` for a `TypeError`. -/
def notTupleError (tag : String) (t : Val) : ErrorDetails :=
  { message := "Value is not a tuple type"
    pred := "TupleSpec"
    value := t
    via := [tag]
    path := [] }

/-- Per-position validation of tuple elements against child Specs. -/
def tupleElemsGo (tag : String) : List (Spec × Val) → Nat → VRes
  | [], _ => VRes.done []
  | (c, e) :: rest, i =>
    VRes.seq (enrichVRes (c.validate e) tag (Option.some (Val.int (Int.ofNat i))))
      (tupleElemsGo tag rest (i + 1))

/-- `TupleSpec.from_val`: length check first (one error, stop), then
per-position child validation; the whole body catches `TypeError` and
converts it into one shape error.  The conformer rebuilds the conformed
elements (the synthetic namedtuple record type is not modelled; conformed
tuples are `Val.list`). -/
def TupleSpec.from_val (tag : Option String) (children : List Spec) (conf : Option Conf) : Spec :=
  let t := tag.getD "tuple"
  let conformTuple : Conf := fun v =>
    match pyIter v with
    | Except.error e => Except.error e
    | Except.ok elems =>
      ((children.zip elems).mapM (fun (p : Spec × Val) => p.1.conform p.2)).map Val.list
  { tag := t
    validate := fun v =>
      match pyIter v with
      | Except.error PyExn.typeError => VRes.done [notTupleError t v]
      | Except.error e => VRes.raised [] e
      | Except.ok elems =>
        if elems.length ≠ children.length then
          VRes.done [tupleLenError t children.length elems.length]
        else
          match tupleElemsGo t (children.zip elems) 0 with
          | VRes.raised errs PyExn.typeError => VRes.done (errs ++ [notTupleError t v])
          | r => r
    conformer := compose_conformers [Option.some conformTuple, conf] }

/-- `_all_valid`: validate against each Spec in turn; a failing Spec's
errors are yielded and the loop stops; a passing Spec's `conform_valid`
output becomes the value the next Spec validates.  The per-spec error list
is materialized before being yielded, so an exception loses the partial
list. -/
def allValidRaw : List Spec → Val → VRes
  | [], _ => VRes.done []
  | s :: rest, v =>
    match s.validate v with
    | VRes.raised _ e => VRes.raised [] e
    | VRes.done [] =>
      match s.conform_valid v with
      | Except.error e => VRes.raised [] e
      | Except.ok v2 => allValidRaw rest v2
    | VRes.done errs => VRes.done errs

/-- `all_spec` (the general branch with two or more Specs): a
`ValidatorSpec` over `_all_valid` whose conformer is the composition of the
constituents' `conformer` properties followed by the optional extra
conformer. -/
def all_spec (tag : Option String) (specs : List Spec) (conf : Option Conf) : Spec :=
  ValidatorSpec (tag.getD "all") (allValidRaw specs)
    (compose_conformers (specs.map (fun s => s.conformer) ++ [conf]))

/-- `_any_valid`: first success short-circuits with no errors; otherwise
every constituent list of errors is accumulated and yielded at the end. -/
def anyValidRaw (v : Val) : List Spec → List ErrorDetails → VRes
  | [], acc => VRes.done acc
  | s :: rest, acc =>
    match s.validate v with
    | VRes.raised _ e => VRes.raised [] e
    | VRes.done [] => VRes.done []
    | VRes.done errs => anyValidRaw v rest (acc ++ errs)

/-- `_conform_any`: re-validate each Spec; the first accepting Spec's
`conform_valid` result (asserted not `INVALID`) is fed to the optional
extra conformer and, under `tag_conformed`, paired with the winning tag. -/
def anyConformGo (v : Val) (tagConformed : Bool) (conf : Option Conf) : List Spec → Except PyExn Val
  | [] => Except.ok Val.invalid
  | s :: rest =>
    match s.validate v with
    | VRes.raised _ e => Except.error e
    | VRes.done (_ :: _) => anyConformGo v tagConformed conf rest
    | VRes.done [] =>
      match s.conform_valid v with
      | Except.error e => Except.error e
      | Except.ok conformed =>
        if conformed = Val.invalid then Except.error PyExn.assertionError
        else
          match (match conf with
                 | Option.none => Except.ok conformed
                 | Option.some c => c conformed : Except PyExn Val) with
          | Except.error e => Except.error e
          | Except.ok conformed2 =>
            Except.ok (if tagConformed then Val.list [Val.str s.tag, conformed2] else conformed2)

/-- `any_spec` (the general branch with two or more Specs). -/
def any_spec (tag : Option String) (specs : List Spec) (tagConformed : Bool)
    (conf : Option Conf) : Spec :=
  ValidatorSpec (tag.getD "any") (fun v => anyValidRaw v specs [])
    (Option.some (fun v => anyConformGo v tagConformed conf specs))

/-- `nil_or_pred`: `None` is accepted outright; otherwise the wrapped
Spec's errors are yielded and, when there are any, followed by one extra
"is not None" error (built without a `via` entry; the `ValidatorSpec`
wrapper adds the nilable tag). -/
def nilableRaw (spec : Spec) : Val → VRes := fun v =>
  if v = Val.none then VRes.done []
  else
    match spec.validate v with
    | VRes.raised _ e => VRes.raised [] e
    | VRes.done [] => VRes.done []
    | VRes.done errs =>
      VRes.done (errs ++ [{ message := "Value " ++ pyStr v ++ " is not None"
                            pred := "nil_or_pred"
                            value := v
                            via := []
                            path := [] }])

/-- `conform_nilable`: pass `None` through, else delegate to the wrapped
Spec's full `conform` (which re-validates). -/
def conformNilable (spec : Spec) : Conf := fun v =>
  if v = Val.none then Except.ok v else spec.conform v

/-- `nilable_spec` from `factories.py` (the single-predicate form, with the
predicate already built into a Spec). -/
def nilable_spec (tag : Option String) (spec : Spec) (conf : Option Conf) : Spec :=
  ValidatorSpec (tag.getD "nilable") (nilableRaw spec)
    (compose_conformers [Option.some (conformNilable spec), conf])

/-!  A heap-level rendering of `ErrorDetails.with_details` for the mutation
claim: `ErrorDetails` objects live at addresses in a heap (a list of
objects), a method call takes and returns an address, and `with_details`
updates the object at its receiver address in place and returns the very
same address. -/

def withDetailsRef (heap : List ErrorDetails) (r : Nat) (tag : String) (loc : Option Val) :
    List ErrorDetails × Nat :=
  match heap[r]? with
  | Option.none => (heap, r)
  | Option.some err => (heap.set r (err.with_details tag loc), r)

/-!  Concrete example Specs used by witnesses and counterexamples. -/

/-- A predicate Spec accepting exactly integer values. -/
def isNumChild : Spec :=
  PredicateSpec "is_num"
    (fun v => match v with | Val.int _ => Except.ok true | _ => Except.ok false)
    Option.none

/-- A predicate Spec accepting exactly string values. -/
def strChild : Spec :=
  PredicateSpec "is_str"
    (fun v => match v with | Val.str _ => Except.ok true | _ => Except.ok false)
    Option.none

/-- A collection Spec of numbers, as `make_spec([is_num])` would build. -/
def collNums : Spec := CollSpec.from_val (Option.some "coll") isNumChild Option.none

/-- A mapping Spec requiring only the key `id` (child: string check). -/
def idSpec : Spec := DictSpec.from_val (Option.some "map") [("id", false, strChild)] Option.none

/-- The mapping Spec of the spec.md example: `a` maps to a collection of
numbers. -/
def c8Spec : Spec := DictSpec.from_val (Option.some "map") [("a", false, collNums)] Option.none

/-- The subject of the spec.md example. -/
def c8Input : Val := Val.dict [("a", Val.list [Val.int 1, Val.int 2, Val.str "x"])]

/-- The predicate Spec `is_num` with a conformer incrementing the number. -/
def numInc : Spec :=
  PredicateSpec "is_num"
    (fun v => match v with | Val.int _ => Except.ok true | _ => Except.ok false)
    (Option.some (fun v => match v with
                           | Val.int n => Except.ok (Val.int (n + 1))
                           | _ => Except.ok v))

/-- A predicate Spec accepting strictly positive integers. -/
def isPos : Spec :=
  PredicateSpec "is_pos"
    (fun v => match v with | Val.int n => Except.ok (decide (0 < n)) | _ => Except.ok false)
    Option.none

/-- The error `numInc`/`isNumChild` yields on the string `x`. -/
def numFailX : ErrorDetails :=
  { message := "Value x does not satisfy predicate is_num"
    pred := "is_num"
    value := Val.str "x"
    via := ["is_num"]
    path := [] }

/-- A two-member enum with an ordinary shape (distinct names, values, and
no name/value collisions). -/
def ynMembers : List (String × Val) := [("YES", Val.str "Yes"), ("NO", Val.str "No")]

def ynSpec : Spec := SetSpec.from_enum Option.none "YesNo" ynMembers Option.none

/-- A pathological enum: the value of member `A` is the string `B`, which
is also the name of member `B`. -/
def abMembers : List (String × Val) := [("A", Val.str "B"), ("B", Val.str "x")]

def abSpec : Spec := SetSpec.from_enum Option.none "AB" abMembers Option.none

/-- An enum whose single member has a member of a different enum as its
value (as Python permits: `class Paint(Enum): CRIMSON = Color.RED`). -/
def paintMembers : List (String × Val) := [("CRIMSON", Val.enumMem "Color" "RED")]

/-- Values on which a Python `in` test with a string key works without
raising: mappings, lists and strings. -/
def supportsMembership : Val → Bool
  | Val.dict _ => true
  | Val.list _ => true
  | Val.str _ => true
  | _ => false

/-!  Helper lemmas about error streams and enrichment. -/

theorem VRes.errs_seq_done {errs : List ErrorDetails} {r : VRes} :
    (VRes.seq (VRes.done errs) r).errs = errs ++ r.errs := by
  cases r <;> rfl

theorem mem_seq_errs {e : ErrorDetails} {r1 r2 : VRes} (h : e ∈ (VRes.seq r1 r2).errs) :
    e ∈ r1.errs ∨ e ∈ r2.errs := by
  cases r1 <;> cases r2 <;> simp [VRes.seq, VRes.errs] at h ⊢ <;> tauto

theorem with_details_via (err : ErrorDetails) (tag : String) (loc : Option Val) :
    (err.with_details tag loc).via = tag :: err.via := rfl

theorem mem_enrich_errs {e : ErrorDetails} {r : VRes} {tag : String} {loc : Option Val}
    (h : e ∈ (enrichVRes r tag loc).errs) : e.via.head? = Option.some tag := by
  cases r <;> simp only [enrichVRes, VRes.errs, List.mem_map] at h <;>
    obtain ⟨e0, _, rfl⟩ := h <;> rfl

theorem collElemsGo_via {child : Spec} {tag : String} :
    ∀ (elems : List Val) (i : Nat) (e : ErrorDetails),
      e ∈ (collElemsGo child tag elems i).errs → e.via.head? = Option.some tag := by
  intro elems
  induction elems with
  | nil => intro i e h; simp [collElemsGo, VRes.errs] at h
  | cons x rest ih =>
    intro i e h
    rcases mem_seq_errs h with h1 | h2
    · exact mem_enrich_errs h1
    · exact ih (i + 1) e h2

theorem tupleElemsGo_via {tag : String} :
    ∀ (pairs : List (Spec × Val)) (i : Nat) (e : ErrorDetails),
      e ∈ (tupleElemsGo tag pairs i).errs → e.via.head? = Option.some tag := by
  intro pairs
  induction pairs with
  | nil => intro i e h; simp [tupleElemsGo, VRes.errs] at h
  | cons x rest ih =>
    intro i e h
    obtain ⟨c, ev⟩ := x
    rcases mem_seq_errs h with h1 | h2
    · exact mem_enrich_errs h1
    · exact ih (i + 1) e h2

theorem dictGoRaw_via {tag : String} {d : Val} :
    ∀ (ks : List (String × Bool × Spec)) (e : ErrorDetails),
      e ∈ (dictGoRaw tag d ks).errs → e.via.head? = Option.some tag := by
  intro ks
  induction ks with
  | nil => intro e h; simp [dictGoRaw, VRes.errs] at h
  | cons x rest ih =>
    intro e h
    obtain ⟨k, isOpt, child⟩ := x
    simp only [dictGoRaw] at h
    cases hc : dictContains d k with
    | error ex => rw [hc] at h; simp [VRes.errs] at h
    | ok present =>
      rw [hc] at h
      cases present with
      | true =>
        cases hg : dictGet d k with
        | error ex => rw [hg] at h; simp [VRes.errs] at h
        | ok vk =>
          rw [hg] at h
          rcases mem_seq_errs h with h1 | h2
          · exact mem_enrich_errs h1
          · exact ih e h2
      | false =>
        cases isOpt with
        | true => exact ih e h
        | false =>
          simp only [Bool.false_eq_true, if_false] at h
          rcases mem_seq_errs h with h1 | h2
          · simp [VRes.errs, missingKeyError] at h1; rw [h1]; rfl
          · exact ih e h2

/-!  Claim theorems. -/

/-- C10: `ErrorDetails.with_details(tag, loc)` mutates and returns the very
same `ErrorDetails` instance rather than a copy: the returned reference is
the receiver reference, the object at that address now has `tag` prepended
to `via` and `loc` prepended to `path` exactly when a `loc` was supplied,
its `message`, `pred` and `value` are unchanged, every other heap cell is
untouched, and therefore the enrichment is visible to every holder of the
same reference. -/
theorem c10_with_details_mutation (heap : List ErrorDetails) (r : Nat) (tag : String)
    (loc : Option Val) (err : ErrorDetails) (h : heap[r]? = Option.some err) :
    (withDetailsRef heap r tag loc).2 = r
    ∧ (withDetailsRef heap r tag loc).1.length = heap.length
    ∧ (withDetailsRef heap r tag loc).1[r]? = Option.some (err.with_details tag loc)
    ∧ (err.with_details tag loc).via = tag :: err.via
    ∧ (err.with_details tag loc).path =
        (match loc with | Option.some l => l :: err.path | Option.none => err.path)
    ∧ (err.with_details tag loc).message = err.message
    ∧ (err.with_details tag loc).pred = err.pred
    ∧ (err.with_details tag loc).value = err.value
    ∧ ∀ j, j ≠ r → (withDetailsRef heap r tag loc).1[j]? = heap[j]? := by
  have hlt : r < heap.length := by
    rcases List.getElem?_eq_some_iff.mp h with ⟨hl, _⟩
    exact hl
  have hw : withDetailsRef heap r tag loc = (heap.set r (err.with_details tag loc), r) := by
    unfold withDetailsRef
    rw [h]
  rw [hw]
  refine ⟨rfl, by simp, ?_, rfl, rfl, rfl, rfl, rfl, ?_⟩
  · simpa using List.getElem?_set_self (by simpa using hlt)
  · intro j hj
    exact List.getElem?_set_ne (fun hh => hj hh.symm)

/-- C10 witness: a concrete two-cell heap; updating cell 0 returns
reference 0, rewrites cell 0 and leaves cell 1 alone. -/
theorem c10_witness :
    (withDetailsRef [numFailX, numFailX] 0 "map" (Option.some (Val.str "a"))).2 = 0
    ∧ (withDetailsRef [numFailX, numFailX] 0 "map" (Option.some (Val.str "a"))).1[0]? =
        Option.some (numFailX.with_details "map" (Option.some (Val.str "a")))
    ∧ (withDetailsRef [numFailX, numFailX] 0 "map" (Option.some (Val.str "a"))).1[1]? =
        Option.some numFailX := by
  have h := c10_with_details_mutation [numFailX, numFailX] 0 "map"
    (Option.some (Val.str "a")) numFailX (by decide)
  exact ⟨h.1, h.2.2.1, h.2.2.2.2.2.2.2.2 1 (by decide)⟩

/-- C2 counterexample: the claim says `is_valid` never raises, but a
collection Spec applied to a non-iterable subject propagates the
`TypeError` raised by `enumerate` (there is no try/except in
`CollSpec.validate`, unlike `DictSpec` and `TupleSpec`). -/
theorem c2_counterexample :
    (CollSpec.from_val (Option.some "coll") isNumChild Option.none).is_valid (Val.int 5) =
      Except.error PyExn.typeError := by decide

/-- C2 amended: `is_valid` returns a boolean and never raises for
predicate Specs and validator Specs (both convert exceptions raised during
validation into `ErrorDetails`); this covers every `ValidatorSpec`-based
Spec, hence the `all`/`any`/`nilable` combinators.  Collection and set
Specs, by contrast, can propagate a `TypeError` (non-iterable or
unhashable subject) out of `is_valid`, as `c2_counterexample` shows. -/
theorem c2_is_valid_amended :
    (∀ (tag : String) (p : Val → Except PyExn Bool) (conf : Option Conf) (v : Val),
       ∃ b, (PredicateSpec tag p conf).is_valid v = Except.ok b)
    ∧ (∀ (tag : String) (f : Val → VRes) (conf : Option Conf) (v : Val),
       ∃ b, (ValidatorSpec tag f conf).is_valid v = Except.ok b) := by
  constructor
  · intro tag p conf v
    simp only [PredicateSpec, Spec.is_valid]
    cases hp : p v with
    | error e => exact ⟨false, rfl⟩
    | ok b => cases b <;> exact ⟨_, rfl⟩
  · intro tag f conf v
    simp only [ValidatorSpec, Spec.is_valid]
    cases hf : f v with
    | done errs => cases errs <;> exact ⟨_, rfl⟩
    | raised errs e => cases errs <;> exact ⟨_, rfl⟩

/-- C3: a mapping Spec with a required key `k`, validating a mapping in
which `k` is absent, yields exactly the dedicated missing-key error whose
path is `[k]`; the result is the same for every child Spec (only the
child's tag is cited as the offending predicate), so the child is never
invoked.  The last conjunct is the concrete case of the claim: a mapping
Spec requiring only `id`, validating `{}`, yields exactly one error with
path `["id"]`. -/
theorem c3_missing_key (tag k : String) (child : Spec) (conf : Option Conf)
    (kvs : List (String × Val)) (habs : ∀ kv ∈ kvs, kv.1 ≠ k) :
    (DictSpec.from_val (Option.some tag) [(k, false, child)] conf).validate (Val.dict kvs) =
      VRes.done [missingKeyError tag child.tag k (Val.dict kvs)]
    ∧ (missingKeyError tag child.tag k (Val.dict kvs)).path = [Val.str k]
    ∧ idSpec.validate (Val.dict []) =
        VRes.done [missingKeyError "map" "is_str" "id" (Val.dict [])] := by
  refine ⟨?_, rfl, by decide⟩
  have hc : dictContains (Val.dict kvs) k = Except.ok false := by
    simp only [dictContains, Except.ok.injEq]
    rw [List.any_eq_false]
    intro kv hkv
    simpa using habs kv hkv
  simp [DictSpec.from_val, dictGoRaw, hc, VRes.seq]

/-- C3 witness: the concrete instance (`id` required, empty mapping). -/
theorem c3_witness :
    (DictSpec.from_val (Option.some "map") [("id", false, strChild)] Option.none).validate
        (Val.dict []) =
      VRes.done [missingKeyError "map" "is_str" "id" (Val.dict [])] :=
  (c3_missing_key "map" "id" strChild Option.none [] (by intro kv hkv; cases hkv)).1

/-- C5 counterexample: the claim says every non-mapping subject yields
exactly one top-level shape error with no path, but a list subject
supports the `in` test, so the mapping Spec validates it key-wise and
yields a missing-key error whose path is `["id"]` (not a shape error, and
not path-less). -/
theorem c5_counterexample :
    idSpec.validate (Val.list [Val.int 1, Val.int 2, Val.int 3]) =
      VRes.done [missingKeyError "map" "is_str" "id" (Val.list [Val.int 1, Val.int 2, Val.int 3])]
    ∧ (missingKeyError "map" "is_str" "id" (Val.list [Val.int 1, Val.int 2, Val.int 3])).path ≠ []
    ∧ (missingKeyError "map" "is_str" "id"
        (Val.list [Val.int 1, Val.int 2, Val.int 3])).message ≠ "Value is not a mapping type" := by
  refine ⟨by decide, by decide, by decide⟩

/-- C5 amended: for a mapping Spec with at least one keyspec, a subject on
which the key-membership test raises `TypeError` (numbers, booleans, None,
enum members, the INVALID object — i.e. everything except mappings, lists
and strings) yields exactly one top-level shape error with no path and no
per-key errors.  Subjects that support membership tests (lists, strings)
are instead validated key-wise, per `c5_counterexample`. -/
theorem c5_shape_error_amended (tag : String) (ks : List (String × Bool × Spec))
    (conf : Option Conf) (v : Val) (hv : supportsMembership v = false) (hne : ks ≠ []) :
    (DictSpec.from_val (Option.some tag) ks conf).validate v =
      VRes.done [notMappingError tag v]
    ∧ (notMappingError tag v).path = [] := by
  refine ⟨?_, rfl⟩
  match ks, hne with
  | (k, isOpt, child) :: rest, _ =>
    have hc : dictContains v k = Except.error PyExn.typeError := by
      cases v <;> first
        | rfl
        | simp [supportsMembership] at hv
    simp [DictSpec.from_val, dictGoRaw, hc]

/-- C1: `all(S1, S2)` is a sequential pipeline.  If `S1` yields errors,
exactly those errors are yielded (each enriched with the combinator's tag)
and the result does not depend on `S2` at all; if `S1` yields none, `S2`
is validated against `S1.conform_valid(v)` — the conformed output `v2`,
not the original `v` — and yields exactly `S2`'s errors for `v2`
(enriched), or no errors when `S2` accepts `v2`. -/
theorem c1_all_pipeline (S1 S2 : Spec) (tag : String) (conf : Option Conf) (v : Val) :
    (∀ (e0 : ErrorDetails) (errs : List ErrorDetails),
       S1.validate v = VRes.done (e0 :: errs) →
       (all_spec (Option.some tag) [S1, S2] conf).validate v =
         VRes.done ((e0 :: errs).map (fun er => er.with_details tag Option.none))
       ∧ ∀ S2A : Spec,
           (all_spec (Option.some tag) [S1, S2A] conf).validate v =
             (all_spec (Option.some tag) [S1, S2] conf).validate v)
    ∧ (∀ (v2 : Val) (e0 : ErrorDetails) (errs2 : List ErrorDetails),
       S1.validate v = VRes.done [] → S1.conform_valid v = Except.ok v2 →
       S2.validate v2 = VRes.done (e0 :: errs2) →
       (all_spec (Option.some tag) [S1, S2] conf).validate v =
         VRes.done ((e0 :: errs2).map (fun er => er.with_details tag Option.none)))
    ∧ (∀ (v2 v3 : Val),
       S1.validate v = VRes.done [] → S1.conform_valid v = Except.ok v2 →
       S2.validate v2 = VRes.done [] → S2.conform_valid v2 = Except.ok v3 →
       (all_spec (Option.some tag) [S1, S2] conf).validate v = VRes.done []) := by
  refine ⟨?_, ?_, ?_⟩
  · intro e0 errs h
    constructor
    · simp [all_spec, ValidatorSpec, allValidRaw, h]
    · intro S2A
      simp [all_spec, ValidatorSpec, allValidRaw, h]
  · intro v2 e0 errs2 h1 h2 h3
    simp [all_spec, ValidatorSpec, allValidRaw, h1, h2, h3]
  · intro v2 v3 h1 h2 h3 h4
    simp [all_spec, ValidatorSpec, allValidRaw, h1, h2, h3, h4]

/-- C1 witness: `all(is_num-with-increment, is_pos)` on the string `x`:
the first constituent fails, and exactly its error is yielded, enriched
with the `all` tag. -/
theorem c1_witness :
    (all_spec (Option.some "all") [numInc, isPos] Option.none).validate (Val.str "x") =
      VRes.done [numFailX.with_details "all" Option.none] := by
  have h := ((c1_all_pipeline numInc isPos "all" Option.none (Val.str "x")).1 numFailX []
    (by decide)).1
  simpa using h

/-- Helper: when every Spec in the list completes and some Spec yields no
errors, `_any_valid` returns without yielding. -/
theorem anyValidRaw_success (v : Val) :
    ∀ (specs : List Spec) (acc : List ErrorDetails),
      (∀ s ∈ specs, ∃ errs, s.validate v = VRes.done errs) →
      (∃ s ∈ specs, s.validate v = VRes.done []) →
      anyValidRaw v specs acc = VRes.done [] := by
  intro specs
  induction specs with
  | nil => intro acc _ hs; simp at hs
  | cons s rest ih =>
    intro acc hdone hsucc
    rcases hdone s (by simp) with ⟨errs, hse⟩
    cases errs with
    | nil => simp [anyValidRaw, hse]
    | cons e es =>
      have hrest : ∃ s2 ∈ rest, s2.validate v = VRes.done [] := by
        rcases hsucc with ⟨s2, hs2mem, hs2⟩
        rcases List.mem_cons.mp hs2mem with rfl | hmem
        · rw [hse] at hs2; simp at hs2
        · exact ⟨s2, hmem, hs2⟩
      simp only [anyValidRaw, hse]
      exact ih (acc ++ (e :: es)) (fun s2 hm => hdone s2 (by simp [hm])) hrest

/-- Helper: when every Spec in the list yields at least one error,
`_any_valid` yields the accumulator followed by every list of errors in
order. -/
theorem anyValidRaw_all_fail (v : Val) :
    ∀ (specs : List Spec) (acc : List ErrorDetails),
      (∀ s ∈ specs, ∃ e0 errs, s.validate v = VRes.done (e0 :: errs)) →
      anyValidRaw v specs acc =
        VRes.done (acc ++ (specs.map (fun s => (s.validate v).errs)).flatten) := by
  intro specs
  induction specs with
  | nil => intro acc _; simp [anyValidRaw]
  | cons s rest ih =>
    intro acc hall
    rcases hall s (by simp) with ⟨e0, errs, hse⟩
    simp only [anyValidRaw, hse]
    rw [ih (acc ++ (e0 :: errs)) (fun s2 hm => hall s2 (by simp [hm]))]
    simp [hse, VRes.errs, List.append_assoc]

/-- C4: `any(S1, …, Sn)`: when every constituent completes, a first
success short-circuits with no errors; when every constituent fails,
validation yields the concatenation of every constituent's errors in
order `S1 … Sn` (each error enriched with the combinator's tag by the
`ValidatorSpec` wrapper; enrichment mutates the constituent's own error
objects, per C10). -/
theorem c4_any_or (specs : List Spec) (tag : String) (tc : Bool) (conf : Option Conf) (v : Val)
    (hdone : ∀ s ∈ specs, ∃ errs, s.validate v = VRes.done errs) :
    ((∃ s ∈ specs, s.validate v = VRes.done []) →
       (any_spec (Option.some tag) specs tc conf).validate v = VRes.done [])
    ∧ ((∀ s ∈ specs, s.validate v ≠ VRes.done []) →
       (any_spec (Option.some tag) specs tc conf).validate v =
         VRes.done (((specs.map (fun s => (s.validate v).errs)).flatten).map
           (fun er => er.with_details tag Option.none))) := by
  constructor
  · intro hsucc
    have hr : anyValidRaw v specs [] = VRes.done [] :=
      anyValidRaw_success v specs [] hdone hsucc
    simp [any_spec, ValidatorSpec, hr]
  · intro hfail
    have hall : ∀ s ∈ specs, ∃ e0 errs, s.validate v = VRes.done (e0 :: errs) := by
      intro s hm
      rcases hdone s hm with ⟨errs, hse⟩
      cases errs with
      | nil => exact absurd hse (hfail s hm)
      | cons e0 es => exact ⟨e0, es, hse⟩
    have hr := anyValidRaw_all_fail v specs [] hall
    simp only [List.nil_append] at hr
    simp [any_spec, ValidatorSpec, hr]

/-- C4 witness: `any(is_num, is_str)` on `None`: both fail, and the two
errors are concatenated in order. -/
theorem c4_witness :
    (any_spec (Option.some "any") [isNumChild, strChild] false Option.none).validate Val.none =
      VRes.done ((([isNumChild, strChild].map
          (fun s => (s.validate Val.none).errs)).flatten).map
        (fun er => er.with_details "any" Option.none)) := by
  refine (c4_any_or [isNumChild, strChild] "any" false Option.none Val.none ?_).2 ?_
  · intro s hs
    rcases List.mem_cons.mp hs with rfl | hs2
    · exact ⟨(isNumChild.validate Val.none).errs, by decide⟩
    rcases List.mem_cons.mp hs2 with rfl | hs3
    · exact ⟨(strChild.validate Val.none).errs, by decide⟩
    · cases hs3
  · intro s hs
    rcases List.mem_cons.mp hs with rfl | hs2
    · decide
    rcases List.mem_cons.mp hs2 with rfl | hs3
    · decide
    · cases hs3

/-- The extra error yielded by a failing `nilable` Spec, as it appears
after the `ValidatorSpec` wrapper enriched it with the nilable tag. -/
def nilNotNoneError (tag : String) (v : Val) : ErrorDetails :=
  { message := "Value " ++ pyStr v ++ " is not None"
    pred := "nil_or_pred"
    value := v
    via := [tag]
    path := [] }

/-- C9: `nilable(S)` yields no errors on `None` or when `S` accepts; on a
non-`None` value rejected by `S` it yields exactly `S`'s errors (enriched
with the nilable tag) plus exactly one extra "is not None" error;
conformance passes `None` through unchanged and otherwise delegates to
`S.conform`. -/
theorem c9_nilable (S : Spec) (tag : String) (v : Val) :
    ((nilable_spec (Option.some tag) S Option.none).validate Val.none = VRes.done [])
    ∧ (v ≠ Val.none → S.validate v = VRes.done [] →
        (nilable_spec (Option.some tag) S Option.none).validate v = VRes.done [])
    ∧ (∀ (e0 : ErrorDetails) (errs : List ErrorDetails),
        v ≠ Val.none → S.validate v = VRes.done (e0 :: errs) →
        (nilable_spec (Option.some tag) S Option.none).validate v =
          VRes.done (((e0 :: errs).map (fun er => er.with_details tag Option.none)) ++
            [nilNotNoneError tag v]))
    ∧ ((nilable_spec (Option.some tag) S Option.none).conform Val.none = Except.ok Val.none)
    ∧ (v ≠ Val.none → S.validate v = VRes.done [] →
        (nilable_spec (Option.some tag) S Option.none).conform v = S.conform v) := by
  refine ⟨?_, ?_, ?_, ?_, ?_⟩
  · simp [nilable_spec, ValidatorSpec, nilableRaw]
  · intro hv h
    simp [nilable_spec, ValidatorSpec, nilableRaw, hv, h]
  · intro e0 errs hv h
    simp [nilable_spec, ValidatorSpec, nilableRaw, hv, h, nilNotNoneError,
      ErrorDetails.with_details]
  · have hraw : nilableRaw S Val.none = VRes.done [] := by
      simp [nilableRaw]
    simp [Spec.conform, Spec.conform_valid, nilable_spec, ValidatorSpec,
      compose_conformers, conformNilable, hraw]
  · intro hv h
    have hraw : nilableRaw S v = VRes.done [] := by
      simp [nilableRaw, hv, h]
    simp [Spec.conform, Spec.conform_valid, nilable_spec, ValidatorSpec,
      compose_conformers, conformNilable, hraw, hv, h]

/-- C9 witness: `nilable(is_num)` on the string `x`: the constituent error
plus the extra "is not None" error. -/
theorem c9_witness :
    (nilable_spec (Option.some "nilable") isNumChild Option.none).validate (Val.str "x") =
      VRes.done (([numFailX].map (fun er => er.with_details "nilable" Option.none)) ++
        [nilNotNoneError "nilable" (Val.str "x")]) :=
  (c9_nilable isNumChild "nilable" (Val.str "x")).2.2.1 numFailX [] (by decide) (by decide)

/-- The per-position error lists of a sequence of (child Spec, element)
pairs numbered from `i`, each enriched with the tag and the position. -/
def enrichedFrom (tag : String) (pairs : List (Spec × Val)) (i : Nat) : List ErrorDetails :=
  ((pairs.enumFrom i).map (fun pr =>
    ((pr.2.1.validate pr.2.2).errs).map
      (fun er => er.with_details tag (Option.some (Val.int (Int.ofNat pr.1)))))).flatten

theorem tupleElemsGo_done (tag : String) :
    ∀ (pairs : List (Spec × Val)) (i : Nat),
      (∀ p ∈ pairs, ∃ errs, p.1.validate p.2 = VRes.done errs) →
      tupleElemsGo tag pairs i = VRes.done (enrichedFrom tag pairs i) := by
  intro pairs
  induction pairs with
  | nil => intro i _; simp [tupleElemsGo, enrichedFrom]
  | cons p rest ih =>
    intro i hall
    obtain ⟨c, ev⟩ := p
    rcases hall (c, ev) (by simp) with ⟨errs, hce⟩
    have hce2 : c.validate ev = VRes.done errs := hce
    rw [tupleElemsGo, ih (i + 1) (fun q hq => hall q (by simp [hq]))]
    simp [enrichVRes, hce2, VRes.seq, VRes.errs, enrichedFrom]

/-- C7: for a tuple Spec of arity `n` and a sized subject with elements
`elems`: an arity mismatch yields exactly one error whose message cites the
expected and the actual length (and no per-element errors); a matching
arity yields, for each position in order, the child Spec's errors enriched
with the positional index as the path segment. -/
theorem c7_tuple (children : List Spec) (tag : String) (conf : Option Conf) (v : Val)
    (elems : List Val) (hiter : pyIter v = Except.ok elems) :
    (elems.length ≠ children.length →
       (TupleSpec.from_val (Option.some tag) children conf).validate v =
         VRes.done [tupleLenError tag children.length elems.length])
    ∧ ((tupleLenError tag children.length elems.length).message =
        s!"Expected {children.length} values; found {elems.length}")
    ∧ (elems.length = children.length →
       (∀ p ∈ children.zip elems, ∃ errs, p.1.validate p.2 = VRes.done errs) →
       (TupleSpec.from_val (Option.some tag) children conf).validate v =
         VRes.done (enrichedFrom tag (children.zip elems) 0)) := by
  refine ⟨?_, rfl, ?_⟩
  · intro hne
    simp [TupleSpec.from_val, hiter, hne]
  · intro heq hall
    have hgo := tupleElemsGo_done tag (children.zip elems) 0 hall
    simp [TupleSpec.from_val, hiter, heq, hgo]

/-- C7 witness: the spec.md scenario shape — a two-place tuple Spec
`(is_str, {M, F})` on the two-element subject `(0, "X")`: arity matches,
and the two errors sit at paths `[0]` and `[1]`. -/
theorem c7_witness :
    (TupleSpec.from_val (Option.some "tuple")
        [strChild, SetSpec "mf" [Val.str "M", Val.str "F"] Option.none]
        Option.none).validate (Val.list [Val.int 0, Val.str "X"]) =
      VRes.done (enrichedFrom "tuple"
        ([strChild, SetSpec "mf" [Val.str "M", Val.str "F"] Option.none].zip
          [Val.int 0, Val.str "X"]) 0) := by
  refine (c7_tuple [strChild, SetSpec "mf" [Val.str "M", Val.str "F"] Option.none] "tuple"
    Option.none (Val.list [Val.int 0, Val.str "X"]) [Val.int 0, Val.str "X"] (by decide)).2.2
    (by decide) ?_
  intro p hp
  rcases List.mem_cons.mp hp with rfl | hp2
  · exact ⟨(strChild.validate (Val.int 0)).errs, by decide⟩
  rcases List.mem_cons.mp hp2 with rfl | hp3
  · exact ⟨((SetSpec "mf" [Val.str "M", Val.str "F"] Option.none).validate
      (Val.str "X")).errs, by decide⟩
  · cases hp3

/-- The single error of the spec.md example, after full enrichment. -/
def c8ExpectedError : ErrorDetails :=
  { message := "Value x does not satisfy predicate is_num"
    pred := "is_num"
    value := Val.str "x"
    via := ["map", "coll", "is_num"]
    path := [Val.str "a", Val.int 2] }

/-- C8: error enrichment builds `via` and `path` by prepending as errors
bubble outward: `with_details` prepends the tag to `via` and the location
(when supplied) to `path`; consequently, for every composite Spec —
validator-wrapped (hence `all`/`any`/`nilable`), collection, mapping and
tuple Specs — every yielded error carries the root Spec's tag as the first
element of `via`; and on the spec.md example (`{"a": [1, 2, "x"]}` against
a mapping of `a` to a collection of numbers) the single error's path is
`["a", 2]`, whose last element is the deepest locator. -/
theorem c8_via_path :
    (∀ (err : ErrorDetails) (tag : String) (l : Val),
       (err.with_details tag (Option.some l)).via = tag :: err.via
       ∧ (err.with_details tag (Option.some l)).path = l :: err.path
       ∧ (err.with_details tag Option.none).path = err.path)
    ∧ (∀ (tag : String) (f : Val → VRes) (conf : Option Conf) (v : Val),
       ∀ e ∈ ((ValidatorSpec tag f conf).validate v).errs, e.via.head? = Option.some tag)
    ∧ (∀ (tag : String) (child : Spec) (conf : Option Conf) (v : Val),
       ∀ e ∈ ((CollSpec.from_val (Option.some tag) child conf).validate v).errs,
         e.via.head? = Option.some tag)
    ∧ (∀ (tag : String) (ks : List (String × Bool × Spec)) (conf : Option Conf) (v : Val),
       ∀ e ∈ ((DictSpec.from_val (Option.some tag) ks conf).validate v).errs,
         e.via.head? = Option.some tag)
    ∧ (∀ (tag : String) (children : List Spec) (conf : Option Conf) (v : Val),
       ∀ e ∈ ((TupleSpec.from_val (Option.some tag) children conf).validate v).errs,
         e.via.head? = Option.some tag)
    ∧ (c8Spec.validate c8Input = VRes.done [c8ExpectedError]
       ∧ c8ExpectedError.path = [Val.str "a", Val.int 2]) := by
  refine ⟨fun err tag l => ⟨rfl, rfl, rfl⟩, ?_, ?_, ?_, ?_, by decide, rfl⟩
  · intro tag f conf v e he
    simp only [ValidatorSpec] at he
    cases hf : f v with
    | done errs =>
      rw [hf] at he
      simp only [VRes.errs, List.mem_map] at he
      obtain ⟨e0, _, rfl⟩ := he
      rfl
    | raised errs ex =>
      rw [hf] at he
      simp only [VRes.errs, List.mem_append, List.mem_map, List.mem_singleton] at he
      rcases he with ⟨e0, _, rfl⟩ | rfl
      · rfl
      · rfl
  · intro tag child conf v e he
    simp only [CollSpec.from_val] at he
    rcases mem_seq_errs he with h1 | h2
    · exact mem_enrich_errs h1
    · cases hi : pyIter v with
      | error ex => rw [hi] at h2; simp [VRes.errs] at h2
      | ok elems => rw [hi] at h2; exact collElemsGo_via elems 0 e h2
  · intro tag ks conf v e he
    simp only [DictSpec.from_val, Option.getD_some] at he
    cases hg : dictGoRaw tag v ks with
    | done errs =>
      simp only [hg] at he
      exact dictGoRaw_via ks e (by rw [hg]; exact he)
    | raised errs ex =>
      simp only [hg] at he
      by_cases hex : ex = PyExn.typeError ∨ ex = PyExn.attributeError
      · rw [if_pos hex] at he
        simp only [VRes.errs, List.mem_append, List.mem_singleton] at he
        rcases he with h1 | rfl
        · exact dictGoRaw_via ks e (by rw [hg]; exact h1)
        · rfl
      · rw [if_neg hex] at he
        exact dictGoRaw_via ks e (by rw [hg]; exact he)
  · intro tag children conf v e he
    simp only [TupleSpec.from_val, Option.getD_some] at he
    cases hi : pyIter v with
    | error ex =>
      simp only [hi] at he
      cases ex with
      | typeError =>
        simp only [VRes.errs, List.mem_singleton] at he
        subst he
        rfl
      | keyError => simp [VRes.errs] at he
      | valueError => simp [VRes.errs] at he
      | attributeError => simp [VRes.errs] at he
      | assertionError => simp [VRes.errs] at he
    | ok elems =>
      simp only [hi] at he
      by_cases hlen : elems.length ≠ children.length
      · rw [if_pos hlen] at he
        simp [VRes.errs, tupleLenError] at he
        subst he
        rfl
      · rw [if_neg hlen] at he
        cases hg : tupleElemsGo tag (children.zip elems) 0 with
        | done errs =>
          simp only [hg] at he
          exact tupleElemsGo_via (children.zip elems) 0 e (by rw [hg]; exact he)
        | raised errs ex =>
          simp only [hg] at he
          cases ex with
          | typeError =>
            simp only [VRes.errs, List.mem_append, List.mem_singleton] at he
            rcases he with h1 | rfl
            · exact tupleElemsGo_via (children.zip elems) 0 e (by rw [hg]; exact h1)
            · rfl
          | keyError => exact tupleElemsGo_via (children.zip elems) 0 e (by rw [hg]; exact he)
          | valueError => exact tupleElemsGo_via (children.zip elems) 0 e (by rw [hg]; exact he)
          | attributeError =>
            exact tupleElemsGo_via (children.zip elems) 0 e (by rw [hg]; exact he)
          | assertionError =>
            exact tupleElemsGo_via (children.zip elems) 0 e (by rw [hg]; exact he)

/-- C8 witness: the validator-wrapper conjunct applied to a concrete
failing constituent — the error yielded by `nilable(is_num)` on `3.5`-like
input `x` carries `nilable` first in `via`. -/
theorem c8_witness :
    (numFailX.with_details "nilable" Option.none).via.head? = Option.some "nilable" := by
  refine (c8_via_path.2.1 "nilable" (nilableRaw isNumChild) Option.none (Val.str "x")
    (numFailX.with_details "nilable" Option.none) ?_)
  decide

/-- Helper: in a list whose image under `f` has no duplicates, searching
for the `f`-value of a member finds exactly that member. -/
theorem find_by_proj {α β : Type} [DecidableEq β] (f : α → β) :
    ∀ (l : List α) (m : α), m ∈ l → (l.map f).Nodup →
      l.find? (fun p => f p == f m) = Option.some m := by
  intro l
  induction l with
  | nil => intro m hm; cases hm
  | cons a rest ih =>
    intro m hm hnd
    have hnd2 : (f a :: rest.map f).Nodup := by simpa using hnd
    obtain ⟨hnot, hrest⟩ := List.nodup_cons.mp hnd2
    rcases List.mem_cons.mp hm with rfl | hmem
    · simp
    · have hba : (f a == f m) = false := by
        cases hx : (f a == f m) with
        | false => rfl
        | true =>
          have heq : f a = f m := by simpa using hx
          exact absurd (heq ▸ List.mem_map_of_mem f hmem) hnot
      rw [List.find?_cons]
      simp only [hba]
      exact ih m hmem hrest

/-- Helper: a value that fails the member pass-through test (any
non-member value, any string, and any member object of a *different*
enum) takes the value-lookup-then-name-lookup path of the conformer. -/
theorem enumConformer_not_isMember {enumName : String} {members : List (String × Val)}
    {v : Val} (hv : isMemberOf enumName members v = false) :
    enumConformer enumName members v =
      (match members.find? (fun p => p.2 == v) with
       | Option.some p => Except.ok (Val.enumMem enumName p.1)
       | Option.none =>
         match v with
         | Val.str s =>
           match members.find? (fun p => p.1 == s) with
           | Option.some p => Except.ok (Val.enumMem enumName p.1)
           | Option.none => Except.ok Val.invalid
         | _ => Except.ok Val.invalid) := by
  simp only [enumConformer, hv, Bool.false_eq_true, if_false]
  cases hf : members.find? (fun p => p.2 == v) with
  | some p => rfl
  | none => cases v <;> rfl

/-- Helper: anything that is not a member object of *this* enum fails the
pass-through test; members of other enums included. -/
theorem isMemberOf_eq_false_of {enumName : String} {members : List (String × Val)}
    {v : Val} (hv : ∀ n, v ≠ Val.enumMem enumName n) :
    isMemberOf enumName members v = false := by
  cases v with
  | enumMem e n =>
    have hne : e ≠ enumName := fun h => hv n (by rw [h])
    simp [isMemberOf, hne]
  | none => rfl
  | bool b => rfl
  | int n => rfl
  | str s => rfl
  | list vs => rfl
  | dict kvs => rfl
  | invalid => rfl

/-- Helper: the value set of an enum Spec contains each member object,
each member name, and each member value. -/
theorem mem_enumValues (enumName : String) {members : List (String × Val)}
    {m : String × Val} (hm : m ∈ members) :
    Val.enumMem enumName m.1 ∈ enumValues enumName members
    ∧ Val.str m.1 ∈ enumValues enumName members
    ∧ m.2 ∈ enumValues enumName members := by
  refine ⟨?_, ?_, ?_⟩ <;>
    exact List.mem_flatten.mpr
      ⟨[Val.enumMem enumName m.1, Val.str m.1, m.2],
        List.mem_map_of_mem _ hm, by simp⟩

/-- Helper: an enum-built `SetSpec` validates a hashable member of its
value set with no errors, and its conformer is exactly the enum
conformer. -/
theorem enum_spec_valid {enumName : String} {members : List (String × Val)} {v : Val}
    (hh : isHashable v = true) (hmem : v ∈ enumValues enumName members) :
    (SetSpec.from_enum Option.none enumName members Option.none).conform v =
      enumConformer enumName members v := by
  have hd : decide (v ∈ enumValues enumName members) = true := decide_eq_true hmem
  have hval : (SetSpec.from_enum Option.none enumName members Option.none).validate v =
      VRes.done [] := by
    simp [SetSpec.from_enum, SetSpec, setContains, hh, hd]
  simp only [Spec.conform, hval]
  rfl

/-- C6 counterexample: the claim fails in two ways.  (a) For the enum
`AB` with `A = "B"` and `B = "x"`, conforming the *name* of member `B`
resolves — by value lookup, which precedes name lookup — to member `A`,
not to `B`.  (b) Conforming an unhashable value (a list) raises
`TypeError` from the set-membership test instead of returning INVALID. -/
theorem c6_counterexample :
    (abSpec.conform (Val.str "B") = Except.ok (Val.enumMem "AB" "A")
     ∧ Val.enumMem "AB" "A" ≠ Val.enumMem "AB" "B")
    ∧ ynSpec.conform (Val.list []) = Except.error PyExn.typeError := by
  exact ⟨⟨by decide, by decide⟩, by decide⟩

/-- C6 amended: for an enum Spec over canonical members with distinct
names and distinct hashable values, none of which is a member object of
this same enum (in Python a member value cannot reference the enum being
defined; a member of a *different* enum is a legal value and is resolved
by value lookup): `conform(m) == m` and `conform(m.value) == m` for every
member `m`; `conform(m.name) == m` holds provided no member's value equals
the string `m.name` (value lookup precedes name lookup, else the
value-owning member wins, per the counterexample); and `conform` of any
hashable value that is not a member, name or value is INVALID (an
unhashable value instead raises `TypeError` from the membership test). -/
theorem c6_enum_conform (enumName : String) (members : List (String × Val))
    (m : String × Val) (hm : m ∈ members)
    (hnames : (members.map Prod.fst).Nodup)
    (hvals : (members.map Prod.snd).Nodup)
    (hhash : ∀ p ∈ members, isHashable p.2 = true)
    (hnotself : ∀ p ∈ members, ∀ n, p.2 ≠ Val.enumMem enumName n) :
    ((SetSpec.from_enum Option.none enumName members Option.none).conform
        (Val.enumMem enumName m.1) = Except.ok (Val.enumMem enumName m.1))
    ∧ ((SetSpec.from_enum Option.none enumName members Option.none).conform m.2 =
        Except.ok (Val.enumMem enumName m.1))
    ∧ ((∀ p ∈ members, p.2 ≠ Val.str m.1) →
        (SetSpec.from_enum Option.none enumName members Option.none).conform (Val.str m.1) =
          Except.ok (Val.enumMem enumName m.1))
    ∧ (∀ v : Val, isHashable v = true → v ∉ enumValues enumName members →
        (SetSpec.from_enum Option.none enumName members Option.none).conform v =
          Except.ok Val.invalid) := by
  obtain ⟨hmm, hmn, hmv⟩ := mem_enumValues enumName hm
  refine ⟨?_, ?_, ?_, ?_⟩
  · rw [enum_spec_valid (by rfl) hmm]
    have hany : members.any (fun p => p.1 == m.1) = true :=
      List.any_eq_true.mpr ⟨m, hm, by simp⟩
    simp [enumConformer, isMemberOf, hany]
  · rw [enum_spec_valid (hhash m hm) hmv]
    rw [enumConformer_not_isMember (isMemberOf_eq_false_of (hnotself m hm))]
    rw [find_by_proj Prod.snd members m hm hvals]
  · intro hnoval
    rw [enum_spec_valid (by rfl) hmn]
    rw [enumConformer_not_isMember (isMemberOf_eq_false_of (fun n hh => Val.noConfusion hh))]
    have hnone : members.find? (fun p => p.2 == Val.str m.1) = Option.none :=
      List.find?_eq_none.mpr (fun p hp => by simpa using hnoval p hp)
    rw [hnone]
    have hfst := find_by_proj Prod.fst members m hm hnames
    simp only [hfst]
  · intro v hh hnot
    have hd : decide (v ∈ enumValues enumName members) = false := decide_eq_false hnot
    have hval : (SetSpec.from_enum Option.none enumName members Option.none).validate v =
        VRes.done [{ message := "Value " ++ pyStr v ++ " not in the value set"
                     pred := "set"
                     value := v
                     via := [enumName]
                     path := [] }] := by
      simp [SetSpec.from_enum, SetSpec, setContains, hh, hd]
    simp [Spec.conform, hval]

/-- C6 witness: the well-behaved enum `YesNo` (every conformer direction
resolves to the canonical member, a stranger value is INVALID), and the
enum `Paint` whose member `CRIMSON` has a member of the *other* enum
`Color` as its value: conforming that foreign member resolves, by value
lookup, to `CRIMSON`. -/
theorem c6_witness :
    ynSpec.conform (Val.enumMem "YesNo" "YES") = Except.ok (Val.enumMem "YesNo" "YES")
    ∧ ynSpec.conform (Val.str "Yes") = Except.ok (Val.enumMem "YesNo" "YES")
    ∧ ynSpec.conform (Val.str "YES") = Except.ok (Val.enumMem "YesNo" "YES")
    ∧ ynSpec.conform (Val.str "Maybe") = Except.ok Val.invalid
    ∧ (SetSpec.from_enum Option.none "Paint" paintMembers Option.none).conform
        (Val.enumMem "Color" "RED") = Except.ok (Val.enumMem "Paint" "CRIMSON") := by
  have hhashYn : ∀ p ∈ ynMembers, isHashable p.2 = true := by
    intro p hp
    rcases List.mem_cons.mp hp with rfl | hp2
    · rfl
    rcases List.mem_cons.mp hp2 with rfl | hp3
    · rfl
    · cases hp3
  have hnotselfYn : ∀ p ∈ ynMembers, ∀ n, p.2 ≠ Val.enumMem "YesNo" n := by
    intro p hp n
    rcases List.mem_cons.mp hp with rfl | hp2
    · exact fun hh => Val.noConfusion hh
    rcases List.mem_cons.mp hp2 with rfl | hp3
    · exact fun hh => Val.noConfusion hh
    · cases hp3
  have h := c6_enum_conform "YesNo" ynMembers ("YES", Val.str "Yes")
    (by decide) (by decide) (by decide) hhashYn hnotselfYn
  have hnoval : ∀ p ∈ ynMembers, p.2 ≠ Val.str ("YES", Val.str "Yes").1 := by
    intro p hp
    rcases List.mem_cons.mp hp with rfl | hp2
    · decide
    rcases List.mem_cons.mp hp2 with rfl | hp3
    · decide
    · cases hp3
  have hpaint := c6_enum_conform "Paint" paintMembers ("CRIMSON", Val.enumMem "Color" "RED")
    (by decide) (by decide) (by decide)
    (by intro p hp
        rcases List.mem_cons.mp hp with rfl | hp3
        · rfl
        · cases hp3)
    (by intro p hp n
        rcases List.mem_cons.mp hp with rfl | hp3
        · exact fun hh => absurd (Val.enumMem.inj hh).1 (by decide)
        · cases hp3)
  exact ⟨h.1, h.2.1, h.2.2.1 hnoval, h.2.2.2 (Val.str "Maybe") (by decide) (by decide),
    hpaint.2.1⟩

/-- C5 witness: an integer subject against the `id` mapping Spec. -/
theorem c5_witness :
    idSpec.validate (Val.int 7) = VRes.done [notMappingError "map" (Val.int 7)] :=
  (c5_shape_error_amended "map" [("id", false, strChild)] Option.none (Val.int 7)
    (by decide) (by simp)).1
